import Mathlib

/-!
# Thread state coordinator of the Firefox debug adapter

A shallow embedding of the `ThreadActorProxy` class from
`src/firefox/actorProxy/thread.ts`: the reconciliation routine `doNext`,
the control operations (`interrupt`, `resume`, `stepOver`, `stepInto`,
`stepOut`, `fetchStackFrames`, `evaluate`, `runOnPausedThread` and the
operation-finished callback) and the inbound message handler
`receiveResponse`.

Observable side effects (wire requests sent over the connection,
resolution and rejection of the deferreds handed out to callers, and
events emitted to listeners) are collected in an explicit effect list.
Each deferred (a queued or active evaluate request, a pending frame
request) is identified by a natural number allocated at submission time;
the identifier is a ghost value standing for the identity of the
resolve/reject closures held by the coordinator, not a wire field.
-/

/-- An opaque remote value handle (a `Grip` in the Firefox protocol). -/
abbrev Grip := Nat

/-- An opaque stack frame record, as delivered by a bulk frames message. -/
abbrev Frame := Nat

/-- Outbound wire requests sent via `connection.sendRequest`.  The `id` on
`clientEvaluate` is the ghost identity of the queued evaluate request whose
`send` closure produced the message (the wire message itself carries only
the expression and the frame actor name). -/
inductive Request where
  | attach : Request
  | sources : Request
  | interrupt : Request
  | frames : Request
  | resume (resumeLimit : Option String) : Request
  | clientEvaluate (id : Nat) (expression : String) (frame : String) : Request
  deriving DecidableEq

/-- A queued evaluate request: the ghost identity of its deferred plus the
data captured by its `send` closure. -/
structure QueuedEvaluateRequest where
  id : Nat
  expression : String
  frame : String
  deriving DecidableEq

/-- Observable side effects of the coordinator. -/
inductive Eff where
  | send (r : Request) : Eff
  | resolveEval (id : Nat) (value : Grip) : Eff
  | rejectEval (id : Nat) (reason : String) : Eff
  | resolveFrames (id : Nat) (fs : List Frame) : Eff
  | rejectFrames (id : Nat) (reason : String) : Eff
  | rejectCall (reason : String) : Eff
  | emit (event : String) (payload : Option String) : Eff
  deriving DecidableEq

/-- The mutable fields of a `ThreadActorProxy`.  `nextRequestId` is the
ghost allocator for deferred identities. -/
structure ThreadState where
  desiredState : String
  paused : Bool
  operationsRunningOnPausedThread : Int
  pendingFrameRequests : List Nat
  queuedEvaluateRequests : List QueuedEvaluateRequest
  pendingEvaluateRequest : Option Nat
  nextRequestId : Nat
  deriving DecidableEq

/-- Initial field values of a freshly constructed proxy. -/
def initialState : ThreadState :=
  { desiredState := "paused"
    paused := true
    operationsRunningOnPausedThread := 0
    pendingFrameRequests := []
    queuedEvaluateRequests := []
    pendingEvaluateRequest := none
    nextRequestId := 0 }

/-- `sendPauseRequest`: send an interrupt wire request and mark the thread
paused. -/
def sendPauseRequest (s : ThreadState) : ThreadState × List Eff :=
  ({ s with paused := true }, [Eff.send Request.interrupt])

/-- The reconciliation routine `doNext`.  Branch order follows the source:
pause-scoped operations first, then the active evaluate request, then the
evaluate queue, then the desired state. -/
def doNext (s : ThreadState) : ThreadState × List Eff :=
  if s.operationsRunningOnPausedThread > 0 then
    (s, [])
  else
    match s.pendingEvaluateRequest with
    | some _ =>
      if s.paused then
        ({ s with paused := false }, [Eff.send (Request.resume none)])
      else
        (s, [])
    | none =>
      match s.queuedEvaluateRequests with
      | q :: rest =>
        if s.paused then
          ({ s with queuedEvaluateRequests := rest
                    pendingEvaluateRequest := some q.id
                    paused := false },
           [Eff.send (Request.clientEvaluate q.id q.expression q.frame)])
        else
          (s, s.queuedEvaluateRequests.map
                (fun q => Eff.rejectEval q.id ("Thread is running")))
      | [] =>
        match s.desiredState with
        | "paused" =>
          if s.paused then (s, []) else sendPauseRequest s
        | "running" =>
          if s.paused then
            ({ s with paused := false }, [Eff.send (Request.resume none)])
          else (s, [])
        | "stepOver" =>
          if s.paused then
            ({ s with paused := false },
             [Eff.send (Request.resume (some ("next")))])
          else (s, [])
        | "stepInto" =>
          if s.paused then
            ({ s with paused := false },
             [Eff.send (Request.resume (some ("step")))])
          else (s, [])
        | "stepOut" =>
          if s.paused then
            ({ s with paused := false },
             [Eff.send (Request.resume (some ("finish")))])
          else (s, [])
        | _ => (s, [])

/-- `interrupt()`: set `desiredState` to paused and, if the thread is not
believed paused, send a pause request.  It does not call `doNext`. -/
def interrupt (s : ThreadState) : ThreadState × List Eff :=
  let s1 := { s with desiredState := "paused" }
  if s1.paused then (s1, []) else sendPauseRequest s1

/-- `resume()`: no-op unless `desiredState` is paused; otherwise set it to
running and reconcile. -/
def resume (s : ThreadState) : ThreadState × List Eff :=
  if s.desiredState = "paused" then
    doNext { s with desiredState := "running" }
  else (s, [])

/-- `stepOver()`. -/
def stepOver (s : ThreadState) : ThreadState × List Eff :=
  if s.desiredState = "paused" then
    doNext { s with desiredState := "stepOver" }
  else (s, [])

/-- `stepInto()`. -/
def stepInto (s : ThreadState) : ThreadState × List Eff :=
  if s.desiredState = "paused" then
    doNext { s with desiredState := "stepInto" }
  else (s, [])

/-- `stepOut()`. -/
def stepOut (s : ThreadState) : ThreadState × List Eff :=
  if s.desiredState = "paused" then
    doNext { s with desiredState := "stepOut" }
  else (s, [])

/-- `fetchStackFrames()`: reject the returned deferred with a not-paused
failure if `desiredState` is not paused, or if the thread is not believed
paused; otherwise enqueue a frame-request continuation and send one frames
wire request. -/
def fetchStackFrames (s : ThreadState) : ThreadState × List Eff :=
  if s.desiredState = "paused" then
    if s.paused then
      ({ s with pendingFrameRequests := s.pendingFrameRequests ++ [s.nextRequestId]
                nextRequestId := s.nextRequestId + 1 },
       [Eff.send Request.frames])
    else
      (s, [Eff.rejectCall ("not paused")])
  else
    (s, [Eff.rejectCall ("not paused")])

/-- `evaluate(expr, frameActorName)`: reject immediately unless
`desiredState` is paused; otherwise push a queued evaluate request (its
`send` closure captures the expression and frame) and reconcile. -/
def evaluate (expr : String) (frame : String) (s : ThreadState) :
    ThreadState × List Eff :=
  if s.desiredState = "paused" then
    doNext { s with
      queuedEvaluateRequests :=
        s.queuedEvaluateRequests ++ [⟨s.nextRequestId, expr, frame⟩]
      nextRequestId := s.nextRequestId + 1 }
  else (s, [Eff.rejectCall ("not paused")])

/-- `runOnPausedThread(operation)`: increment the pause-scoped operation
counter and, if the thread is not believed paused, send a pause request.
The operation itself is caller code; its actions are separate events. -/
def runOnPausedThread (s : ThreadState) : ThreadState × List Eff :=
  let s1 := { s with
    operationsRunningOnPausedThread := s.operationsRunningOnPausedThread + 1 }
  if s1.paused then (s1, []) else sendPauseRequest s1

/-- `operationFinishedOnPausedThread`: decrement the counter and
reconcile. -/
def operationFinishedOnPausedThread (s : ThreadState) : ThreadState × List Eff :=
  doNext { s with
    operationsRunningOnPausedThread := s.operationsRunningOnPausedThread - 1 }

/-- Modelled from the spec: the `PendingRequests` FIFO correlator lives in
`pendingRequests.ts`, which is not among the given sources.  Per the spec
it is a FIFO queue of outstanding request continuations; `resolveOne`
fulfills the oldest outstanding continuation with the response value. -/
def resolveOne (ids : List Nat) (fs : List Frame) : List Nat × List Eff :=
  match ids with
  | [] => ([], [])
  | i :: rest => (rest, [Eff.resolveFrames i fs])

/-- Modelled from the spec: `PendingRequests.rejectAll` rejects every
outstanding continuation with the given reason, leaving none outstanding. -/
def rejectAll (ids : List Nat) (reason : String) : List Nat × List Eff :=
  ([], ids.map (fun i => Eff.rejectFrames i reason))

/-- Inbound messages dispatched by `receiveResponse`, by shape. -/
inductive Message where
  | paused (why : String) (returnValue : Grip) : Message
  | resumed : Message
  | newSource (url : String) : Message
  | sources : Message
  | frames (fs : List Frame) : Message
  | detached : Message
  | exited : Message
  | wrongState : Message
  | newGlobal : Message
  | unknown : Message
  deriving DecidableEq

/-- `receiveResponse`: the inbound message handler.  Returns `none` when
the handler throws: on a paused message of why-type `clientEvaluated`
with no active evaluate request, `this.pendingEvaluateRequest.resolve`
dereferences null. -/
def receiveResponse (m : Message) (s : ThreadState) :
    Option (ThreadState × List Eff) :=
  match m with
  | Message.paused why v =>
    match why with
    | "attached" => some (s, [])
    | "interrupted" =>
      let s1 := { s with paused := true }
      some (s1,
        if s1.desiredState = "paused" then
          [Eff.emit ("paused") (some ("interrupted"))]
        else [])
    | "resumeLimit" =>
      let p := doNext { s with paused := true, desiredState := "paused" }
      some (p.1, p.2 ++ [Eff.emit ("paused") (some ("resumeLimit"))])
    | "breakpoint" =>
      let p := doNext { s with paused := true, desiredState := "paused" }
      some (p.1, p.2 ++ [Eff.emit ("paused") (some ("breakpoint"))])
    | "clientEvaluated" =>
      match s.pendingEvaluateRequest with
      | none => none
      | some i =>
        let p := doNext { s with paused := true, pendingEvaluateRequest := none }
        some (p.1,
          Eff.resolveEval i v :: p.2 ++
            (if p.1.paused then
              [Eff.emit ("paused") (some ("clientEvaluated"))]
            else []))
    | _ => some (s, [])
  | Message.resumed => some (s, [])
  | Message.newSource url => some (s, [Eff.emit ("newSource") (some url)])
  | Message.sources => some (s, [])
  | Message.frames fs =>
    let p := resolveOne s.pendingFrameRequests fs
    some ({ s with pendingFrameRequests := p.1 }, p.2)
  | Message.detached => some (s, [])
  | Message.exited =>
    let p := rejectAll s.pendingFrameRequests ("Exited")
    some ({ s with pendingFrameRequests := p.1 },
      p.2 ++ [Eff.emit ("exited") none])
  | Message.wrongState => some (s, [Eff.emit ("wrongState") none])
  | Message.newGlobal => some (s, [])
  | Message.unknown => some (s, [])

/-- One step of the coordinator: a control operation, an operation-finished
callback, or the successful handling of an inbound message. -/
inductive Step : ThreadState → ThreadState → Prop where
  | interrupt (s : ThreadState) : Step s (interrupt s).1
  | resume (s : ThreadState) : Step s (resume s).1
  | stepOver (s : ThreadState) : Step s (stepOver s).1
  | stepInto (s : ThreadState) : Step s (stepInto s).1
  | stepOut (s : ThreadState) : Step s (stepOut s).1
  | fetchStackFrames (s : ThreadState) : Step s (fetchStackFrames s).1
  | evaluate (expr frame : String) (s : ThreadState) :
      Step s (evaluate expr frame s).1
  | runOnPausedThread (s : ThreadState) : Step s (runOnPausedThread s).1
  | operationFinished (s : ThreadState) :
      Step s (operationFinishedOnPausedThread s).1
  | receive (m : Message) (s s1 : ThreadState) (effs : List Eff)
      (h : receiveResponse m s = some (s1, effs)) : Step s s1

/-- States reachable from the initial state by coordinator steps. -/
inductive Reachable : ThreadState → Prop where
  | init : Reachable initialState
  | step {s s1 : ThreadState} : Reachable s → Step s s1 → Reachable s1

/-- The evaluate/response subsystem of claim C3: runs that interleave
`evaluate` calls with inbound `clientEvaluated` pause messages, starting
from the initial state, accumulating the effect trace. -/
inductive EvalReachable : ThreadState → List Eff → Prop where
  | init : EvalReachable initialState []
  | call (expr frame : String) {s : ThreadState} {tr : List Eff} :
      EvalReachable s tr →
      EvalReachable (evaluate expr frame s).1 (tr ++ (evaluate expr frame s).2)
  | response (v : Grip) {s s1 : ThreadState} {tr effs : List Eff} :
      EvalReachable s tr →
      receiveResponse (Message.paused ("clientEvaluated") v) s = some (s1, effs) →
      EvalReachable s1 (tr ++ effs)

/-- The evaluate-relevant actions of an effect trace: which evaluate
deferred's wire request was sent, and which evaluate deferred was settled
(fulfilled or rejected). -/
inductive EvAction where
  | sent (id : Nat) : EvAction
  | settled (id : Nat) : EvAction
  deriving DecidableEq

/-- Project an effect trace to its evaluate-relevant actions, in order. -/
def evalActions : List Eff → List EvAction
  | [] => []
  | Eff.send (Request.clientEvaluate i _ _) :: rest =>
      EvAction.sent i :: evalActions rest
  | Eff.resolveEval i _ :: rest => EvAction.settled i :: evalActions rest
  | Eff.rejectEval i _ :: rest => EvAction.settled i :: evalActions rest
  | _ :: rest => evalActions rest

/-- The strictly alternating action sequence
sent 0, settled 0, sent 1, settled 1, …, sent (n-1), settled (n-1). -/
def altSeq : Nat → List EvAction
  | 0 => []
  | n + 1 => altSeq n ++ [EvAction.sent n, EvAction.settled n]

/-- The ids of the sent actions of a projected trace, in trace order. -/
def sentIds (l : List EvAction) : List Nat :=
  l.filterMap (fun a =>
    match a with
    | EvAction.sent i => some i
    | EvAction.settled _ => none)

/-- Ids of the queued evaluate requests, in queue order. -/
def queueIds (s : ThreadState) : List Nat :=
  s.queuedEvaluateRequests.map (fun q => q.id)

/-- The state after `evaluate` pushes a queued request, before its
`doNext` call: the request queue gains an entry holding a fresh deferred
identity. -/
def pushEvaluate (expr frame : String) (s : ThreadState) : ThreadState :=
  { s with
    queuedEvaluateRequests :=
      s.queuedEvaluateRequests ++ [⟨s.nextRequestId, expr, frame⟩]
    nextRequestId := s.nextRequestId + 1 }

/-- The state assumed by the `clientEvaluated` handler before its `doNext`
call: the thread is marked paused and the active evaluate request is
cleared. -/
def afterClientEvaluated (s : ThreadState) : ThreadState :=
  { s with paused := true, pendingEvaluateRequest := none }

/-- Invariant of the evaluate/response subsystem: the desired state stays
paused, no pause-scoped operation is pending, and the projected trace is
the alternating sequence, open at the active evaluate request if there is
one, whose successors form the queue. -/
def EvalInv (s : ThreadState) (tr : List Eff) : Prop :=
  s.desiredState = "paused" ∧
  s.operationsRunningOnPausedThread = 0 ∧
  match s.pendingEvaluateRequest with
  | none =>
      s.paused = true ∧ s.queuedEvaluateRequests = [] ∧
      evalActions tr = altSeq s.nextRequestId
  | some i =>
      s.paused = false ∧ i + 1 ≤ s.nextRequestId ∧
      queueIds s = List.range' (i + 1) (s.nextRequestId - (i + 1)) ∧
      evalActions tr = altSeq i ++ [EvAction.sent i]

/-- Iterated calls of `interrupt`, concatenating the effects of each
call in order. -/
def interruptIter : Nat → ThreadState → ThreadState × List Eff
  | 0, s => (s, [])
  | n + 1, s =>
    let p := interrupt s
    let p2 := interruptIter n p.1
    (p2.1, p.2 ++ p2.2)

/-- Whether an effect settles (fulfills or rejects) an evaluate
deferred. -/
def isEvalSettle : Eff → Bool
  | Eff.resolveEval _ _ => true
  | Eff.rejectEval _ _ => true
  | _ => false

/-- A state exercising the race branch of `doNext`: no pause-scoped
operations, no active evaluate, one queued evaluate request, thread
running. -/
def c1State : ThreadState :=
  { desiredState := "running"
    paused := false
    operationsRunningOnPausedThread := 0
    pendingFrameRequests := []
    queuedEvaluateRequests := [⟨0, "1+1", "frame1"⟩]
    pendingEvaluateRequest := none
    nextRequestId := 1 }

/-- A state with an active evaluate request on a running thread. -/
def c4State : ThreadState :=
  { desiredState := "paused"
    paused := false
    operationsRunningOnPausedThread := 0
    pendingFrameRequests := []
    queuedEvaluateRequests := []
    pendingEvaluateRequest := some 0
    nextRequestId := 1 }

/-- A state with an active evaluate request awaiting its response. -/
def c9State : ThreadState :=
  { initialState with pendingEvaluateRequest := some 0, paused := false }

/-- The invariant of claim C2: pause-scoped operations outstanding implies
the thread is believed paused. -/
def PauseInv (s : ThreadState) : Prop :=
  s.operationsRunningOnPausedThread > 0 → s.paused = true

theorem doNext_operations (s : ThreadState) :
    (doNext s).1.operationsRunningOnPausedThread =
      s.operationsRunningOnPausedThread := by
  unfold doNext sendPauseRequest
  repeat (first | rfl | split)

theorem doNext_of_pos {s : ThreadState}
    (h : s.operationsRunningOnPausedThread > 0) : doNext s = (s, []) := by
  unfold doNext
  simp [h]

theorem doNext_pauseInv {s : ThreadState} (h : PauseInv s) :
    PauseInv (doNext s).1 := by
  intro hc
  rw [doNext_operations] at hc
  rw [doNext_of_pos hc]
  exact h hc

theorem interrupt_paused_true (s : ThreadState) :
    (interrupt s).1.paused = true := by
  unfold interrupt sendPauseRequest
  by_cases hp : s.paused = true <;> simp [hp]

theorem resume_pauseInv {s : ThreadState} (h : PauseInv s) :
    PauseInv (resume s).1 := by
  unfold resume
  split
  · exact doNext_pauseInv h
  · exact h

theorem stepOver_pauseInv {s : ThreadState} (h : PauseInv s) :
    PauseInv (stepOver s).1 := by
  unfold stepOver
  split
  · exact doNext_pauseInv h
  · exact h

theorem stepInto_pauseInv {s : ThreadState} (h : PauseInv s) :
    PauseInv (stepInto s).1 := by
  unfold stepInto
  split
  · exact doNext_pauseInv h
  · exact h

theorem stepOut_pauseInv {s : ThreadState} (h : PauseInv s) :
    PauseInv (stepOut s).1 := by
  unfold stepOut
  split
  · exact doNext_pauseInv h
  · exact h

theorem fetchStackFrames_pauseInv {s : ThreadState} (h : PauseInv s) :
    PauseInv (fetchStackFrames s).1 := by
  unfold fetchStackFrames
  split
  · split
    · exact fun hc => h hc
    · exact h
  · exact h

theorem evaluate_pauseInv {s : ThreadState} (h : PauseInv s)
    (expr frame : String) : PauseInv (evaluate expr frame s).1 := by
  unfold evaluate
  split
  · exact doNext_pauseInv (fun hc => h hc)
  · exact h

theorem runOnPausedThread_paused_true (s : ThreadState) :
    (runOnPausedThread s).1.paused = true := by
  unfold runOnPausedThread sendPauseRequest
  by_cases hp : s.paused = true <;> simp [hp]

theorem operationFinished_pauseInv {s : ThreadState} (h : PauseInv s) :
    PauseInv (operationFinishedOnPausedThread s).1 := by
  unfold operationFinishedOnPausedThread
  refine doNext_pauseInv ?_
  intro hc
  have hc2 : s.operationsRunningOnPausedThread - 1 > 0 := hc
  exact h (by omega)

theorem receive_pauseInv {m : Message} {s s1 : ThreadState} {effs : List Eff}
    (h : PauseInv s) (hr : receiveResponse m s = some (s1, effs)) :
    PauseInv s1 := by
  cases m with
  | paused why v =>
    simp only [receiveResponse] at hr
    split at hr
    · cases hr; exact h
    · cases hr; intro _; rfl
    · cases hr; exact doNext_pauseInv (fun _ => rfl)
    · cases hr; exact doNext_pauseInv (fun _ => rfl)
    · split at hr
      · cases hr
      · cases hr; exact doNext_pauseInv (fun _ => rfl)
    · cases hr; exact h
  | resumed => cases hr; exact h
  | newSource url => cases hr; exact h
  | sources => cases hr; exact h
  | frames fs =>
    simp only [receiveResponse] at hr
    cases hr
    exact fun hc => h hc
  | detached => cases hr; exact h
  | exited =>
    simp only [receiveResponse] at hr
    cases hr
    exact fun hc => h hc
  | wrongState => cases hr; exact h
  | newGlobal => cases hr; exact h
  | unknown => cases hr; exact h

theorem reachable_pauseInv {s : ThreadState} (h : Reachable s) : PauseInv s := by
  induction h with
  | init => intro hc; cases hc
  | @step t t1 _ hstep ih =>
    cases hstep with
    | interrupt => exact fun _ => interrupt_paused_true t
    | resume => exact resume_pauseInv ih
    | stepOver => exact stepOver_pauseInv ih
    | stepInto => exact stepInto_pauseInv ih
    | stepOut => exact stepOut_pauseInv ih
    | fetchStackFrames => exact fetchStackFrames_pauseInv ih
    | evaluate expr frame => exact evaluate_pauseInv ih expr frame
    | runOnPausedThread => exact fun _ => runOnPausedThread_paused_true t
    | operationFinished => exact operationFinished_pauseInv ih
    | receive m _ _ effs hr => exact receive_pauseInv ih hr

theorem doNext_promote {s : ThreadState} {q : QueuedEvaluateRequest}
    {rest : List QueuedEvaluateRequest}
    (hops : s.operationsRunningOnPausedThread = 0)
    (hpe : s.pendingEvaluateRequest = none) (hp : s.paused = true)
    (hq : s.queuedEvaluateRequests = q :: rest) :
    doNext s =
      ({ s with queuedEvaluateRequests := rest
                pendingEvaluateRequest := some q.id
                paused := false },
       [Eff.send (Request.clientEvaluate q.id q.expression q.frame)]) := by
  unfold doNext
  simp [hops, hpe, hp, hq]

theorem doNext_activeNotPaused {s : ThreadState} {i : Nat}
    (hops : s.operationsRunningOnPausedThread = 0)
    (hpe : s.pendingEvaluateRequest = some i) (hp : s.paused = false) :
    doNext s = (s, []) := by
  unfold doNext
  simp [hops, hpe, hp]

theorem doNext_quietPaused {s : ThreadState}
    (hops : s.operationsRunningOnPausedThread = 0)
    (hpe : s.pendingEvaluateRequest = none)
    (hq : s.queuedEvaluateRequests = [])
    (hd : s.desiredState = "paused") (hp : s.paused = true) :
    doNext s = (s, []) := by
  unfold doNext
  simp [hops, hpe, hp, hq, hd]

theorem evalActions_append (a b : List Eff) :
    evalActions (a ++ b) = evalActions a ++ evalActions b := by
  induction a with
  | nil => rfl
  | cons e rest ih =>
    cases e with
    | send r => cases r <;> simp [evalActions, ih]
    | resolveEval i v => simp [evalActions, ih]
    | rejectEval i r => simp [evalActions, ih]
    | resolveFrames i fs => simp [evalActions, ih]
    | rejectFrames i r => simp [evalActions, ih]
    | rejectCall r => simp [evalActions, ih]
    | emit e p => simp [evalActions, ih]


theorem receive_clientEvaluated {s : ThreadState} {i : Nat} (v : Grip)
    (hpe : s.pendingEvaluateRequest = some i) :
    receiveResponse (Message.paused ("clientEvaluated") v) s =
      some ((doNext (afterClientEvaluated s)).1,
        Eff.resolveEval i v :: (doNext (afterClientEvaluated s)).2 ++
          (if (doNext (afterClientEvaluated s)).1.paused then
            [Eff.emit ("paused") (some ("clientEvaluated"))]
          else [])) := by
  simp [receiveResponse, hpe, afterClientEvaluated]

theorem evaluate_paused_eq (expr frame : String) {s : ThreadState}
    (hd : s.desiredState = "paused") :
    evaluate expr frame s = doNext (pushEvaluate expr frame s) := by
  unfold evaluate pushEvaluate
  rw [if_pos hd]

theorem pushEvaluate_nextRequestId (expr frame : String) (s : ThreadState) :
    (pushEvaluate expr frame s).nextRequestId = s.nextRequestId + 1 := rfl

theorem evalInv_call {s : ThreadState} {tr : List Eff} (h : EvalInv s tr)
    (expr frame : String) :
    EvalInv (evaluate expr frame s).1 (tr ++ (evaluate expr frame s).2) := by
  obtain ⟨hd, hops, hrest⟩ := h
  rw [evaluate_paused_eq expr frame hd]
  have h1 : (pushEvaluate expr frame s).operationsRunningOnPausedThread = 0 :=
    hops
  cases hpe : s.pendingEvaluateRequest with
  | none =>
    rw [hpe] at hrest
    obtain ⟨hp, hq, htr⟩ := hrest
    have h2 : (pushEvaluate expr frame s).pendingEvaluateRequest = none := hpe
    have h3 : (pushEvaluate expr frame s).paused = true := hp
    have h4 : (pushEvaluate expr frame s).queuedEvaluateRequests =
        (⟨s.nextRequestId, expr, frame⟩ : QueuedEvaluateRequest) :: [] := by
      show s.queuedEvaluateRequests ++ _ = _
      rw [hq]
      rfl
    rw [doNext_promote h1 h2 h3 h4]
    dsimp only
    refine ⟨hd, hops, ?_⟩
    refine ⟨rfl, Nat.le_refl _, ?_, ?_⟩
    · simp [queueIds, pushEvaluate]
    · rw [evalActions_append, htr]
      rfl
  | some i =>
    rw [hpe] at hrest
    obtain ⟨hp, hle, hqi, htr⟩ := hrest
    have h2 : (pushEvaluate expr frame s).pendingEvaluateRequest = some i := hpe
    have h3 : (pushEvaluate expr frame s).paused = false := hp
    rw [doNext_activeNotPaused h1 h2 h3]
    dsimp only
    refine ⟨hd, hops, ?_⟩
    rw [h2]
    refine ⟨hp, ?_, ?_, by simpa using htr⟩
    · rw [pushEvaluate_nextRequestId]
      omega
    · rw [pushEvaluate_nextRequestId]
      have hqp : queueIds (pushEvaluate expr frame s) =
          queueIds s ++ [s.nextRequestId] := by
        simp [queueIds, pushEvaluate]
      rw [hqp, hqi]
      have hcat : List.range' (i + 1) (s.nextRequestId - (i + 1)) ++
          [(i + 1) + 1 * (s.nextRequestId - (i + 1))] =
          List.range' (i + 1) ((s.nextRequestId - (i + 1)) + 1) :=
        (List.range'_concat (i + 1) (s.nextRequestId - (i + 1))).symm
      have hn : (i + 1) + 1 * (s.nextRequestId - (i + 1)) = s.nextRequestId := by
        omega
      have hn2 : (s.nextRequestId - (i + 1)) + 1 =
          s.nextRequestId + 1 - (i + 1) := by omega
      rw [hn, hn2] at hcat
      exact hcat

theorem receive_clientEvaluated_none {s : ThreadState} (v : Grip)
    (hpe : s.pendingEvaluateRequest = none) :
    receiveResponse (Message.paused ("clientEvaluated") v) s = none := by
  simp [receiveResponse, hpe]

theorem evalInv_response {s s1 : ThreadState} {tr effs : List Eff} (v : Grip)
    (h : EvalInv s tr)
    (hr : receiveResponse (Message.paused ("clientEvaluated") v) s =
      some (s1, effs)) :
    EvalInv s1 (tr ++ effs) := by
  obtain ⟨hd, hops, hrest⟩ := h
  cases hpe : s.pendingEvaluateRequest with
  | none =>
    rw [receive_clientEvaluated_none v hpe] at hr
    cases hr
  | some i =>
    rw [receive_clientEvaluated v hpe] at hr
    simp only [Option.some.injEq, Prod.mk.injEq] at hr
    obtain ⟨hs1, heffs⟩ := hr
    subst hs1
    subst heffs
    rw [hpe] at hrest
    obtain ⟨hp, hle, hqi, htr⟩ := hrest
    have h1 : (afterClientEvaluated s).operationsRunningOnPausedThread = 0 :=
      hops
    have h2 : (afterClientEvaluated s).pendingEvaluateRequest = none := rfl
    have h3 : (afterClientEvaluated s).paused = true := rfl
    have hdA : (afterClientEvaluated s).desiredState = "paused" := hd
    cases hq : s.queuedEvaluateRequests with
    | nil =>
      have h4 : (afterClientEvaluated s).queuedEvaluateRequests = [] := hq
      have hnil : List.range' (i + 1) (s.nextRequestId - (i + 1)) = [] := by
        rw [← hqi]
        simp [queueIds, hq]
      have h0 : s.nextRequestId - (i + 1) = 0 := List.range'_eq_nil.mp hnil
      have hnid : s.nextRequestId = i + 1 := by omega
      rw [doNext_quietPaused h1 h2 h4 hdA h3]
      dsimp only
      refine ⟨hd, hops, ?_⟩
      rw [h2]
      refine ⟨h3, h4, ?_⟩
      rw [evalActions_append, htr]
      have hA : (afterClientEvaluated s).nextRequestId = s.nextRequestId := rfl
      rw [hA, hnid]
      simp [altSeq, evalActions, h3]
    | cons q rest =>
      have h4 : (afterClientEvaluated s).queuedEvaluateRequests = q :: rest :=
        hq
      have hcons : List.range' (i + 1) (s.nextRequestId - (i + 1)) =
          q.id :: (rest.map (fun r => r.id)) := by
        rw [← hqi]
        simp [queueIds, hq]
      obtain ⟨hqid, hkpos, hrest2⟩ := List.range'_eq_cons_iff.mp hcons
      rw [doNext_promote h1 h2 h3 h4]
      dsimp only
      refine ⟨hd, hops, ?_⟩
      refine ⟨rfl, ?_, ?_, ?_⟩
      · show q.id + 1 ≤ s.nextRequestId
        omega
      · show rest.map (fun r => r.id) =
          List.range' (q.id + 1) (s.nextRequestId - (q.id + 1))
        rw [hrest2]
        have : q.id + 1 = i + 1 + 1 := by omega
        rw [this]
        have : s.nextRequestId - (i + 1 + 1) =
            s.nextRequestId - (i + 1) - 1 := by omega
        rw [this]
      · rw [evalActions_append, htr]
        have hqid2 : q.id = i + 1 := by omega
        rw [hqid2]
        simp [altSeq, evalActions]

theorem evalReachable_inv {s : ThreadState} {tr : List Eff}
    (h : EvalReachable s tr) : EvalInv s tr := by
  induction h with
  | init => exact ⟨rfl, rfl, rfl, rfl, rfl⟩
  | call expr frame _ ih => exact evalInv_call ih expr frame
  | response v _ hr ih => exact evalInv_response v ih hr

theorem sentIds_append (a b : List EvAction) :
    sentIds (a ++ b) = sentIds a ++ sentIds b :=
  List.filterMap_append a b _

theorem sentIds_altSeq (n : Nat) : sentIds (altSeq n) = List.range n := by
  induction n with
  | zero => rfl
  | succ n ih =>
    show sentIds (altSeq n ++ [EvAction.sent n, EvAction.settled n]) = _
    rw [sentIds_append, ih, List.range_succ]
    rfl

theorem sent_mem_altSeq {k n : Nat} : EvAction.sent k ∈ altSeq n ↔ k < n := by
  induction n with
  | zero => simp [altSeq]
  | succ n ih =>
    simp [altSeq, ih]
    omega

theorem settled_mem_altSeq {k n : Nat} :
    EvAction.settled k ∈ altSeq n ↔ k < n := by
  induction n with
  | zero => simp [altSeq]
  | succ n ih =>
    simp [altSeq, ih]
    omega

theorem altSeq_prefix {k n : Nat} (h : k ≤ n) :
    ∃ t, altSeq n = altSeq k ++ t := by
  induction n with
  | zero =>
    have hk : k = 0 := Nat.le_zero.mp h
    subst hk
    exact ⟨[], by simp⟩
  | succ n ih =>
    rcases Nat.lt_or_ge k (n + 1) with hk | hk
    · obtain ⟨t, ht⟩ := ih (by omega)
      refine ⟨t ++ [EvAction.sent n, EvAction.settled n], ?_⟩
      show altSeq n ++ [EvAction.sent n, EvAction.settled n] = _
      rw [ht, List.append_assoc]
    · have hk2 : k = n + 1 := by omega
      subst hk2
      exact ⟨[], by simp⟩

theorem altSeq_two_decomp (i : Nat) :
    altSeq (i + 2) =
      (altSeq i ++ [EvAction.sent i]) ++
        EvAction.settled i ::
          [EvAction.sent (i + 1), EvAction.settled (i + 1)] := by
  show (altSeq i ++ [EvAction.sent i, EvAction.settled i]) ++
      [EvAction.sent (i + 1), EvAction.settled (i + 1)] = _
  simp

/-- Claim C3: for any run interleaving evaluate calls (issued with
desiredState paused) with clientEvaluated responses, starting from the
initial state: the clientEvaluate wire requests go out in submission order
(the sent deferred identities, read off the trace in order, are 0, 1, 2, …);
at most one evaluate request is in flight at any time, the in-flight one
being exactly the singular pendingEvaluateRequest (activeEvaluate); and
each request's deferred is fulfilled or rejected before the next request's
wire message is sent. -/
theorem evaluate_requests_fifo {s : ThreadState} {tr : List Eff}
    (h : EvalReachable s tr) :
    sentIds (evalActions tr) =
      List.range (sentIds (evalActions tr)).length ∧
    (∀ i : Nat, EvAction.sent i ∈ evalActions tr →
      EvAction.settled i ∉ evalActions tr →
      s.pendingEvaluateRequest = some i) ∧
    (∀ i : Nat, EvAction.sent (i + 1) ∈ evalActions tr →
      ∃ l1 l2, evalActions tr = l1 ++ EvAction.settled i :: l2 ∧
        EvAction.sent (i + 1) ∈ l2) := by
  obtain ⟨hd, hops, hrest⟩ := evalReachable_inv h
  cases hpe : s.pendingEvaluateRequest with
  | none =>
    rw [hpe] at hrest
    obtain ⟨hp, hq, htr⟩ := hrest
    rw [htr]
    refine ⟨?_, ?_, ?_⟩
    · rw [sentIds_altSeq, List.length_range]
    · intro i hi hni
      exact absurd (settled_mem_altSeq.mpr (sent_mem_altSeq.mp hi)) hni
    · intro i hi
      have hlt : i + 1 < s.nextRequestId := sent_mem_altSeq.mp hi
      obtain ⟨t, ht⟩ := altSeq_prefix (show i + 2 ≤ s.nextRequestId by omega)
      rw [ht, altSeq_two_decomp]
      refine ⟨altSeq i ++ [EvAction.sent i],
        EvAction.sent (i + 1) :: EvAction.settled (i + 1) :: t, ?_, ?_⟩
      · simp
      · simp
  | some j =>
    rw [hpe] at hrest
    obtain ⟨hp, hle, hqi, htr⟩ := hrest
    rw [htr]
    refine ⟨?_, ?_, ?_⟩
    · rw [sentIds_append, sentIds_altSeq]
      show List.range j ++ [j] = List.range (List.range j ++ [j]).length
      rw [← List.range_succ, List.length_range]
    · intro i hi hni
      rcases List.mem_append.mp hi with hi2 | hi2
      · have : EvAction.settled i ∈ altSeq j ++ [EvAction.sent j] :=
          List.mem_append.mpr
            (Or.inl (settled_mem_altSeq.mpr (sent_mem_altSeq.mp hi2)))
        exact absurd this hni
      · have : i = j := by
          cases List.mem_singleton.mp hi2
          rfl
        rw [this]
    · intro i hi
      rcases List.mem_append.mp hi with hi2 | hi2
      · have hlt : i + 1 < j := sent_mem_altSeq.mp hi2
        obtain ⟨t, ht⟩ := altSeq_prefix (show i + 2 ≤ j by omega)
        rw [ht, altSeq_two_decomp]
        refine ⟨altSeq i ++ [EvAction.sent i],
          EvAction.sent (i + 1) :: EvAction.settled (i + 1) ::
            (t ++ [EvAction.sent j]), ?_, ?_⟩
        · simp
        · simp
      · have hj : i + 1 = j := by
          cases List.mem_singleton.mp hi2
          rfl
        subst hj
        refine ⟨altSeq i ++ [EvAction.sent i], [EvAction.sent (i + 1)],
          ?_, ?_⟩
        · show altSeq (i + 1) ++ [EvAction.sent (i + 1)] = _
          show (altSeq i ++ [EvAction.sent i, EvAction.settled i]) ++
            [EvAction.sent (i + 1)] = _
          simp
        · simp

/-- Witness for C3: the run consisting of a single evaluate call issued in
the initial (paused) state satisfies the first conjunct concretely. -/
theorem evaluate_requests_fifo_witness :
    sentIds (evalActions ([] ++ (evaluate ("1+1") ("frame1") initialState).2)) =
      List.range
        (sentIds
          (evalActions
            ([] ++ (evaluate ("1+1") ("frame1") initialState).2))).length :=
  (evaluate_requests_fifo
    (EvalReachable.call ("1+1") ("frame1") EvalReachable.init)).1

/-- Counterexample to claim C1 as stated: in the race branch (no pending
operations, no active evaluate, non-empty queue, thread running) `doNext`
invokes every queued entry's rejection continuation with the "Thread is
running" failure but does NOT clear `queuedEvaluateRequests` — the source
only iterates `forEach(reject)` over the array and never empties it. -/
theorem doNext_race_queue_not_cleared :
    (doNext c1State).2 = [Eff.rejectEval 0 ("Thread is running")] ∧
    (doNext c1State).1.queuedEvaluateRequests ≠ [] := by
  constructor
  · rfl
  · decide

/-- Claim C1 (amended): when `doNext` runs with no pending operations, no
active evaluate request, a non-empty evaluate queue and the thread not
paused, every queued entry's rejection continuation is invoked with the
"Thread is running" failure, and the state — including the queue, which is
NOT cleared — is left unchanged. -/
theorem doNext_race_rejects_queued_evaluates {s : ThreadState}
    (hops : s.operationsRunningOnPausedThread = 0)
    (hpe : s.pendingEvaluateRequest = none)
    (hq : s.queuedEvaluateRequests ≠ [])
    (hp : s.paused = false) :
    doNext s =
      (s, s.queuedEvaluateRequests.map
        (fun q => Eff.rejectEval q.id ("Thread is running"))) := by
  unfold doNext
  cases hql : s.queuedEvaluateRequests with
  | nil => exact absurd hql hq
  | cons q rest => simp [hops, hpe, hp, hql]

/-- Witness for the amended C1 at the concrete race state. -/
theorem doNext_race_rejects_queued_evaluates_witness :
    doNext c1State =
      (c1State, c1State.queuedEvaluateRequests.map
        (fun q => Eff.rejectEval q.id ("Thread is running"))) :=
  doNext_race_rejects_queued_evaluates (by decide) (by decide) (by decide)
    (by decide)

/-- Claim C2: in every state reachable from the initial state by control
operations, operation-completion callbacks and inbound message handling,
a positive pause-scoped operation count implies the thread is believed
paused. -/
theorem reachable_pending_operations_imply_paused {s : ThreadState}
    (h : Reachable s) (hc : s.operationsRunningOnPausedThread > 0) :
    s.paused = true :=
  reachable_pauseInv h hc

/-- Witness for C2: after one `runOnPausedThread` call from the initial
state the counter is positive and the thread is indeed marked paused. -/
theorem reachable_pending_operations_imply_paused_witness :
    (runOnPausedThread initialState).1.paused = true :=
  reachable_pending_operations_imply_paused
    (Reachable.step Reachable.init (Step.runOnPausedThread initialState))
    (by decide)

/-- Counterexample to claim C4 as stated: `interrupt()` does not invoke
`doNext` before returning.  At a state with an active evaluate request and
the thread running, `interrupt` sends a pause request and marks the thread
paused, while setting `desiredState` and running `doNext` would leave the
state unchanged and send nothing — so `interrupt`'s behavior is not that
of a `desiredState` change followed by `doNext`. -/
theorem interrupt_not_doNext :
    interrupt c4State ≠ doNext { c4State with desiredState := "paused" } := by
  decide

/-- Claim C4 (amended): `resume`, `stepOver`, `stepInto` and `stepOut`
invoke `doNext` before returning; `interrupt` does not — it sets
`desiredState` to paused and sends a pause request iff the thread is not
believed paused, which coincides with running `doNext` after the
`desiredState` change only when no pause-scoped operation is pending, no
evaluate request is active and the evaluate queue is empty. -/
theorem interrupt_agrees_with_doNext_when_quiescent {s : ThreadState}
    (hops : s.operationsRunningOnPausedThread ≤ 0)
    (hpe : s.pendingEvaluateRequest = none)
    (hq : s.queuedEvaluateRequests = []) :
    interrupt s = doNext { s with desiredState := "paused" } := by
  unfold interrupt doNext sendPauseRequest
  have hng : ¬ s.operationsRunningOnPausedThread > 0 := by omega
  simp [hpe, hq, hng]

/-- Witness for the amended C4 at the initial state. -/
theorem interrupt_agrees_with_doNext_when_quiescent_witness :
    interrupt initialState =
      doNext { initialState with desiredState := "paused" } :=
  interrupt_agrees_with_doNext_when_quiescent (by decide) (by decide)
    (by decide)

/-- Claim C5: starting from any state in which the thread is believed
paused, any positive number of `interrupt` calls sends no wire request at
all (so none after the first either), and leaves the state with
`desiredState` paused and the thread still believed paused. -/
theorem interrupt_idempotent_when_paused {s : ThreadState}
    (hp : s.paused = true) (n : Nat) :
    interruptIter (n + 1) s = ({ s with desiredState := "paused" }, []) := by
  have hbase : ∀ s1 : ThreadState, s1.paused = true →
      interrupt s1 = ({ s1 with desiredState := "paused" }, []) := by
    intro s1 hp1
    unfold interrupt
    simp [hp1]
  induction n generalizing s with
  | zero =>
    show ((interruptIter 0 (interrupt s).1).1,
      (interrupt s).2 ++ (interruptIter 0 (interrupt s).1).2) = _
    rw [hbase s hp]
    rfl
  | succ n ih =>
    show ((interruptIter (n + 1) (interrupt s).1).1,
      (interrupt s).2 ++ (interruptIter (n + 1) (interrupt s).1).2) = _
    rw [hbase s hp]
    have hp2 : ({ s with desiredState := "paused" } : ThreadState).paused =
        true := hp
    rw [ih hp2]
    rfl

/-- Witness for C5: three interrupt calls from the initial (paused) state
send no wire requests and leave the state paused with desiredState
paused. -/
theorem interrupt_idempotent_when_paused_witness :
    interruptIter 3 initialState =
      ({ initialState with desiredState := "paused" }, []) :=
  interrupt_idempotent_when_paused (by decide) 2

/-- Claim C6: `fetchStackFrames` rejects its deferred immediately with a
"not paused" failure when `desiredState` is not paused or the thread is
not believed paused, and otherwise enqueues exactly one frame-request
continuation, sends exactly one frames wire request, and changes nothing
else (the ghost id allocator advances with the new continuation). -/
theorem fetchStackFrames_spec (s : ThreadState) :
    fetchStackFrames s =
      if s.desiredState = "paused" ∧ s.paused = true then
        ({ s with
            pendingFrameRequests :=
              s.pendingFrameRequests ++ [s.nextRequestId]
            nextRequestId := s.nextRequestId + 1 },
         [Eff.send Request.frames])
      else (s, [Eff.rejectCall ("not paused")]) := by
  unfold fetchStackFrames
  by_cases h1 : s.desiredState = "paused" <;>
    by_cases h2 : s.paused = true <;> simp [h1, h2]

theorem receiveResponse_exited_eq (s : ThreadState) :
    receiveResponse Message.exited s =
      some ({ s with pendingFrameRequests := [] },
        (s.pendingFrameRequests.map
          (fun i => Eff.rejectFrames i ("Exited"))) ++
          [Eff.emit ("exited") none]) := by
  simp [receiveResponse, rejectAll]

/-- Claim C7: handling an inbound exited message rejects every outstanding
frame-request continuation with the "Exited" failure (in particular both,
when two are outstanding), emits the exited notification exactly once (the
effect list contains exactly the rejections followed by one emit), runs no
reconciliation and changes no state other than emptying the frame-request
correlator. -/
theorem exited_rejects_all_frame_requests (s : ThreadState) :
    receiveResponse Message.exited s =
      some ({ s with pendingFrameRequests := [] },
        (s.pendingFrameRequests.map
          (fun i => Eff.rejectFrames i ("Exited"))) ++
          [Eff.emit ("exited") none]) :=
  receiveResponse_exited_eq s

/-- Claim C8: from a quiescent paused state, `stepOver` sends exactly one
resume wire request carrying the next-line step limit and marks the thread
running; then handling a paused message with why type resumeLimit marks
the thread paused, resets `desiredState` to paused, runs reconciliation
(which sends nothing here) and emits exactly one paused notification with
reason resumeLimit. -/
theorem stepOver_resumeLimit_roundtrip {s : ThreadState} (v : Grip)
    (hd : s.desiredState = "paused") (hp : s.paused = true)
    (hops : s.operationsRunningOnPausedThread = 0)
    (hq : s.queuedEvaluateRequests = [])
    (hpe : s.pendingEvaluateRequest = none) :
    stepOver s =
      ({ s with desiredState := "stepOver", paused := false },
       [Eff.send (Request.resume (some ("next")))]) ∧
    receiveResponse (Message.paused ("resumeLimit") v)
        { s with desiredState := "stepOver", paused := false } =
      some ({ s with desiredState := "paused", paused := true },
        [Eff.emit ("paused") (some ("resumeLimit"))]) := by
  constructor
  · unfold stepOver doNext
    simp [hd, hp, hpe, hq, hops]
  · have h1 : ({ s with desiredState := "paused", paused := true } :
        ThreadState).operationsRunningOnPausedThread = 0 := hops
    have h2 : ({ s with desiredState := "paused", paused := true } :
        ThreadState).pendingEvaluateRequest = none := hpe
    have h3 : ({ s with desiredState := "paused", paused := true } :
        ThreadState).queuedEvaluateRequests = [] := hq
    have h4 : ({ s with desiredState := "paused", paused := true } :
        ThreadState).desiredState = "paused" := rfl
    have h5 : ({ s with desiredState := "paused", paused := true } :
        ThreadState).paused = true := rfl
    have hqd := doNext_quietPaused h1 h2 h3 h4 h5
    simp only [receiveResponse]
    rw [show ({ s with desiredState := "stepOver", paused := false } :
        ThreadState).pendingFrameRequests = s.pendingFrameRequests from rfl]
    rw [hqd]
    rfl

/-- Witness for C8 at the initial state. -/
theorem stepOver_resumeLimit_roundtrip_witness :
    stepOver initialState =
      ({ initialState with desiredState := "stepOver", paused := false },
       [Eff.send (Request.resume (some ("next")))]) ∧
    receiveResponse (Message.paused ("resumeLimit") 0)
        { initialState with desiredState := "stepOver", paused := false } =
      some ({ initialState with desiredState := "paused", paused := true },
        [Eff.emit ("paused") (some ("resumeLimit"))]) :=
  stepOver_resumeLimit_roundtrip 0 rfl rfl rfl rfl rfl

/-- Claim C9: the clientEvaluated branch of the inbound handler is total
only when an evaluate request is active.  With `pendingEvaluateRequest`
null the handler dereferences null when invoking the continuation (modelled
as the handler returning no result); with it non-null that error branch is
unreachable and the handler produces a result. -/
theorem clientEvaluated_handler_totality (s : ThreadState) (v : Grip) :
    (s.pendingEvaluateRequest = none →
      receiveResponse (Message.paused ("clientEvaluated") v) s = none) ∧
    (s.pendingEvaluateRequest ≠ none →
      (receiveResponse (Message.paused ("clientEvaluated") v) s).isSome =
        true) := by
  constructor
  · intro hpe
    exact receive_clientEvaluated_none v hpe
  · intro hpe
    cases hpe2 : s.pendingEvaluateRequest with
    | none => exact absurd hpe2 hpe
    | some i =>
      rw [receive_clientEvaluated v hpe2]
      rfl

/-- Witness for C9: crash at the initial state (no active evaluate),
success at a state with an active evaluate request. -/
theorem clientEvaluated_handler_totality_witness :
    receiveResponse (Message.paused ("clientEvaluated") 0) initialState =
      none ∧
    (receiveResponse (Message.paused ("clientEvaluated") 0) c9State).isSome =
      true :=
  ⟨(clientEvaluated_handler_totality initialState 0).1 rfl,
   (clientEvaluated_handler_totality c9State 0).2 (by decide)⟩

/-- Claim C10: handling an inbound exited message leaves the evaluate
queue and the active evaluate request exactly as they were and settles no
evaluate deferred (its effects contain no evaluate fulfillment or
rejection), so pending evaluations stay permanently pending: only
frame-request continuations are rejected on exit. -/
theorem exited_leaves_evaluations_pending (s : ThreadState) :
    ∃ s1 effs, receiveResponse Message.exited s = some (s1, effs) ∧
      s1.queuedEvaluateRequests = s.queuedEvaluateRequests ∧
      s1.pendingEvaluateRequest = s.pendingEvaluateRequest ∧
      effs.all (fun e => !(isEvalSettle e)) = true := by
  refine ⟨_, _, receiveResponse_exited_eq s, rfl, rfl, ?_⟩
  rw [List.all_append]
  simp [List.all_map, isEvalSettle, Function.comp]
